import Mathlib

/-!
Verification of the chess rules / game-state engine of this repository.

The repository ships `game.cpp`, `renderer.cpp` and `game.hpp`; the board
engine itself (`board.hpp` / `board.cpp`, class `Board` with `get_moves`,
`move`, `undo`, `is_game_over`, `load_fen`, `get_records`, the `Piece`
codec and the tile helpers) is declared and called but its implementation
file is not part of the sources given here.  Definitions below that carry a
doc comment starting with `Modelled from the spec:` are therefore shallow
embeddings built from the specification's words (sections 3, 4.2-4.5, 6 of
the spec); the remaining definitions (`key_callback`, the picking-texture
id codec) are embedded directly from `game.cpp` and `renderer.cpp`.

Conventions of the embedding: a square is a `Fin 64`, row `= val / 8`,
column `= val % 8`; white pawns move toward higher rows (row 1 is their
double-step rank, row 7 their final rank), black pawns the opposite way,
matching a FEN placement string whose first rank is written into rows
56..63.  Floating point data of `game.cpp` (animation position and angle)
is omitted; only the fields the control flow reads are modelled.
-/

namespace Chess

/-- Modelled from the spec: the color half of the square/piece codec,
`{White, Black, None}` (spec section 3). -/
inductive PieceColor where
  | none
  | white
  | black
deriving DecidableEq, Repr

/-- Modelled from the spec: the kind half of the square/piece codec,
`{None, Pawn, Knight, Bishop, Rook, Queen, King}` (spec section 3). -/
inductive PieceType where
  | none
  | pawn
  | knight
  | bishop
  | rook
  | queen
  | king
deriving DecidableEq, Repr

/-- Modelled from the spec: a piece value encoding color and kind
(spec section 3); a square with kind `none` is empty. -/
structure Piece where
  color : PieceColor
  kind : PieceType
deriving DecidableEq, Repr

/-- The empty-square piece value. -/
def emptyPiece : Piece := ⟨PieceColor.none, PieceType.none⟩

/-- Modelled from the spec: `piece_color` of the codec (spec section 4.1). -/
def get_piece_color (p : Piece) : PieceColor := p.color

/-- Modelled from the spec: `piece_kind` of the codec (spec section 4.1);
the call sites in `game.cpp` name it `get_piece_type`. -/
def get_piece_type (p : Piece) : PieceType := p.kind

/-- Modelled from the spec: `opposite_color` flips white and black
(spec section 4.1); on `none` it is the identity. -/
def get_opposite_color : PieceColor → PieceColor
  | PieceColor.white => PieceColor.black
  | PieceColor.black => PieceColor.white
  | PieceColor.none => PieceColor.none

/-- Modelled from the spec: `tile_row`, row of a linear square index
(spec section 3). -/
def get_tile_row (t : Fin 64) : Nat := t.val / 8

/-- Modelled from the spec: `tile_column`, column of a linear square index
(spec section 3). -/
def get_tile_column (t : Fin 64) : Nat := t.val % 8

/-- Modelled from the spec: a move `{origin, destination, promotion}`
(spec section 3); the call sites in `game.cpp` name the fields
`tile` and `target`. -/
structure Move where
  tile : Fin 64
  target : Fin 64
  promotion : PieceType
deriving DecidableEq, Repr

/-- Modelled from the spec: a history record `{move, captured}` storing the
applied move (with its effective promotion) and the prior occupant of the
destination square (spec section 3). -/
structure Record where
  move : Move
  captured : Piece
deriving DecidableEq, Repr

/-- Modelled from the spec: the game state - the 64-square array, the side
to move and the history stack (spec section 3).  The head of `records` is
the most recently applied move (`get_records().back()` in `game.cpp`). -/
structure Board where
  squares : Fin 64 → Piece
  turn : PieceColor
  records : List Record

instance : DecidableEq Board := fun a b =>
  decidable_of_iff
    (a.squares = b.squares ∧ a.turn = b.turn ∧ a.records = b.records)
    (by cases a; cases b; simp)

/-- Converts row/column coordinates to a square index when they are on the
board; the in-bounds validation of spec section 3. -/
def toTile (r c : Int) : Option (Fin 64) :=
  if h : 0 ≤ r ∧ r < 8 ∧ 0 ≤ c ∧ c < 8 then
    some ⟨(r * 8 + c).toNat, by omega⟩
  else none

/-- The four rook ray directions as (row delta, column delta). -/
def rookDirs : List (Int × Int) := [(1, 0), (-1, 0), (0, 1), (0, -1)]

/-- The four bishop ray directions. -/
def bishopDirs : List (Int × Int) := [(1, 1), (1, -1), (-1, 1), (-1, -1)]

/-- The eight queen ray directions. -/
def queenDirs : List (Int × Int) := rookDirs ++ bishopDirs

/-- The eight knight jump offsets. -/
def knightOffsets : List (Int × Int) :=
  [(2, 1), (2, -1), (-2, 1), (-2, -1), (1, 2), (1, -2), (-1, 2), (-1, -2)]

/-- The eight king step offsets. -/
def kingOffsets : List (Int × Int) :=
  [(1, 0), (1, 1), (0, 1), (-1, 1), (-1, 0), (-1, -1), (0, -1), (1, -1)]

/-- Squares along one ray from given coordinates, walking at most `fuel`
steps and stopping at the board edge. -/
def rayGo (d : Int × Int) : Nat → Int → Int → List (Fin 64)
  | 0, _, _ => []
  | fuel + 1, r, c =>
    match toTile (r + d.1) (c + d.2) with
    | some t => t :: rayGo d fuel (r + d.1) (c + d.2)
    | none => []

/-- All squares of the board along one ray direction from a square. -/
def raySquares (s : Fin 64) (d : Int × Int) : List (Fin 64) :=
  rayGo d 7 (get_tile_row s) (get_tile_column s)

/-- Modelled from the spec: walking a ray until blocked, including the
blocking square only when it holds an enemy piece (spec section 4.2). -/
def slide_ray (b : Board) (c : PieceColor) : List (Fin 64) → List (Fin 64)
  | [] => []
  | t :: rest =>
    if get_piece_type (b.squares t) = PieceType.none then
      t :: slide_ray b c rest
    else if get_piece_color (b.squares t) ≠ c then [t]
    else []

/-- Modelled from the spec: raw destinations of a sliding piece of color
`c`, the union of its blocked rays (spec section 4.2). -/
def sliding_moves (b : Board) (c : PieceColor) (s : Fin 64)
    (dirs : List (Int × Int)) : List (Fin 64) :=
  (dirs.map (fun d => slide_ray b c (raySquares s d))).flatten

/-- Modelled from the spec: raw destinations of a fixed-offset piece
(knight or king), filtered to stay in bounds and off friendly pieces
(spec section 4.2). -/
def offset_moves (b : Board) (c : PieceColor) (s : Fin 64)
    (offs : List (Int × Int)) : List (Fin 64) :=
  offs.filterMap (fun d =>
    match toTile ((get_tile_row s : Int) + d.1)
        ((get_tile_column s : Int) + d.2) with
    | some t =>
      if get_piece_color (b.squares t) = c then none else some t
    | none => none)

/-- Single-square pawn advance onto an empty square (spec section 4.2). -/
def pawn_fwd1 (b : Board) (s : Fin 64) (dir : Int) : List (Fin 64) :=
  match toTile ((get_tile_row s : Int) + dir) (get_tile_column s) with
  | some t =>
    if get_piece_type (b.squares t) = PieceType.none then [t] else []
  | none => []

/-- Double pawn advance from the starting rank, requiring both squares in
front to be empty (spec section 4.2). -/
def pawn_fwd2 (b : Board) (s : Fin 64) (dir start : Int) : List (Fin 64) :=
  match toTile ((get_tile_row s : Int) + dir) (get_tile_column s),
      toTile ((get_tile_row s : Int) + 2 * dir) (get_tile_column s) with
  | some t1, some t2 =>
    if (get_tile_row s : Int) = start ∧
        get_piece_type (b.squares t1) = PieceType.none ∧
        get_piece_type (b.squares t2) = PieceType.none then [t2]
    else []
  | _, _ => []

/-- Diagonal pawn captures onto enemy-occupied squares only
(spec section 4.2). -/
def pawn_caps (b : Board) (c : PieceColor) (s : Fin 64) (dir : Int) :
    List (Fin 64) :=
  [(-1 : Int), 1].filterMap (fun dc =>
    match toTile ((get_tile_row s : Int) + dir)
        ((get_tile_column s : Int) + dc) with
    | some t =>
      if get_piece_type (b.squares t) ≠ PieceType.none ∧
          get_piece_color (b.squares t) ≠ c then some t
      else none
    | none => none)

/-- Modelled from the spec: raw destinations of a pawn of color `c` -
forward one, forward two from the starting rank, diagonal captures
(spec section 4.2).  White pawns move toward higher rows. -/
def pawn_moves (b : Board) (c : PieceColor) (s : Fin 64) : List (Fin 64) :=
  let dir : Int := if c = PieceColor.white then 1 else -1
  let start : Int := if c = PieceColor.white then 1 else 6
  pawn_fwd1 b s dir ++ pawn_fwd2 b s dir start ++ pawn_caps b c s dir

/-- Modelled from the spec: the raw attack-pattern generator, ignoring
self-check; an empty origin yields the empty list (spec section 4.2). -/
def raw_moves (b : Board) (s : Fin 64) : List (Fin 64) :=
  match get_piece_type (b.squares s) with
  | PieceType.none => []
  | PieceType.pawn => pawn_moves b (get_piece_color (b.squares s)) s
  | PieceType.knight =>
    offset_moves b (get_piece_color (b.squares s)) s knightOffsets
  | PieceType.bishop =>
    sliding_moves b (get_piece_color (b.squares s)) s bishopDirs
  | PieceType.rook =>
    sliding_moves b (get_piece_color (b.squares s)) s rookDirs
  | PieceType.queen =>
    sliding_moves b (get_piece_color (b.squares s)) s queenDirs
  | PieceType.king =>
    offset_moves b (get_piece_color (b.squares s)) s kingOffsets

/-- Modelled from the spec: square `t` is attacked against side `c` when
some square holding a piece of the opposite color has `t` in its raw move
set (spec section 4.2). -/
def is_attacked (b : Board) (c : PieceColor) (t : Fin 64) : Bool :=
  (List.finRange 64).any (fun s =>
    decide (get_piece_color (b.squares s) = get_opposite_color c) &&
    decide (t ∈ raw_moves b s))

/-- The square holding the king of color `c`, when one exists. -/
def king_tile (b : Board) (c : PieceColor) : Option (Fin 64) :=
  (List.finRange 64).find? (fun s =>
    decide (get_piece_color (b.squares s) = c ∧
      get_piece_type (b.squares s) = PieceType.king))

/-- Modelled from the spec: side `c` is in check when its king square is
attacked by the opponent's raw move set (spec section 4.2). -/
def in_check (b : Board) (c : PieceColor) : Bool :=
  match king_tile b c with
  | some k => is_attacked b c k
  | none => false

/-- A destination square on the first or last rank, the promotion ranks
(`target < 8 || target > 55` in `game.cpp`). -/
def is_final_rank (t : Fin 64) : Bool := t.val < 8 || t.val > 55

/-- Modelled from the spec: `apply` - moves the piece, clears the origin,
captures any occupant of the destination, promotes on a qualifying pawn
advance, flips the side to move, and pushes a history record holding the
prior occupant of the destination (spec section 4.3).  The record stores
the effective promotion (the requested one only when the move qualifies),
so that the record alone determines how to reverse the move. -/
def Board.move (b : Board) (m : Move) : Board :=
  let p := b.squares m.tile
  let promo :=
    if get_piece_type p = PieceType.pawn ∧ is_final_rank m.target = true
    then m.promotion else PieceType.none
  let p2 := if promo = PieceType.none then p else ⟨p.color, promo⟩
  { squares :=
      Function.update (Function.update b.squares m.tile emptyPiece)
        m.target p2
    turn := get_opposite_color b.turn
    records := ⟨⟨m.tile, m.target, promo⟩, b.squares m.target⟩ :: b.records }

/-- Modelled from the spec: `unmake_last` - a no-op on an empty history;
otherwise pops the last record, restores the destination's prior occupant,
moves the piece back to the origin demoting a promoted piece to a pawn,
and flips the side to move back (spec section 4.3). -/
def Board.undo (b : Board) : Board :=
  match b.records with
  | [] => b
  | last :: rest =>
    let p := b.squares last.move.target
    let orig :=
      if last.move.promotion = PieceType.none then p
      else ⟨p.color, PieceType.pawn⟩
    { squares :=
        Function.update
          (Function.update b.squares last.move.target last.captured)
          last.move.tile orig
      turn := get_opposite_color b.turn
      records := rest }

/-- The move a caller builds from a generated destination: promotion
defaults to queen exactly when a pawn reaches a final rank, as in
`Game::update` (`game.cpp` lines 141-146). -/
def mk_move (b : Board) (s t : Fin 64) : Move :=
  ⟨s, t,
    if get_piece_type (b.squares s) = PieceType.pawn ∧
        is_final_rank t = true
    then PieceType.queen else PieceType.none⟩

/-- Modelled from the spec: `generate_moves` / `Board::get_moves` - the raw
candidates of the origin's piece, keeping only those whose tentative
application leaves the mover's own king unattacked (spec section 4.2). -/
def Board.get_moves (b : Board) (s : Fin 64) : List (Fin 64) :=
  (raw_moves b s).filter (fun t =>
    !(in_check (b.move (mk_move b s t)) (get_piece_color (b.squares s))))

/-- Modelled from the spec: `is_game_over` - true when every square holding
a piece of the side to move has an empty legal move list
(spec section 4.4). -/
def Board.is_game_over (b : Board) : Bool :=
  (List.finRange 64).all (fun s =>
    !(decide (get_piece_color (b.squares s) = b.turn)) ||
    (b.get_moves s).isEmpty)

/-- Maps a FEN placement character to a piece (uppercase white,
lowercase black). -/
def char_piece (ch : Char) : Option Piece :=
  if ch = 'P' then some ⟨PieceColor.white, PieceType.pawn⟩
  else if ch = 'N' then some ⟨PieceColor.white, PieceType.knight⟩
  else if ch = 'B' then some ⟨PieceColor.white, PieceType.bishop⟩
  else if ch = 'R' then some ⟨PieceColor.white, PieceType.rook⟩
  else if ch = 'Q' then some ⟨PieceColor.white, PieceType.queen⟩
  else if ch = 'K' then some ⟨PieceColor.white, PieceType.king⟩
  else if ch = 'p' then some ⟨PieceColor.black, PieceType.pawn⟩
  else if ch = 'n' then some ⟨PieceColor.black, PieceType.knight⟩
  else if ch = 'b' then some ⟨PieceColor.black, PieceType.bishop⟩
  else if ch = 'r' then some ⟨PieceColor.black, PieceType.rook⟩
  else if ch = 'q' then some ⟨PieceColor.black, PieceType.queen⟩
  else if ch = 'k' then some ⟨PieceColor.black, PieceType.king⟩
  else none

/-- Modelled from the spec: the rank-by-rank FEN placement parser -
eight '/'-separated ranks of exactly eight files each, digits for
consecutive empty squares, letters for pieces; any violation of the
rank or file counts or an unknown character rejects the whole input
(spec sections 4.5 and 6).  `rank` counts parsed ranks from the top of
the string (written into rows 7 down to 0), `col` the files filled in
the current rank. -/
def fen_go : List Char → Nat → Nat → (Fin 64 → Piece) →
    Option (Fin 64 → Piece)
  | [], rank, col, acc =>
    if rank = 7 ∧ col = 8 then some acc else none
  | ch :: rest, rank, col, acc =>
    if ch = ' ' then
      if rank = 7 ∧ col = 8 then some acc else none
    else if ch = '/' then
      if col = 8 ∧ rank < 7 then fen_go rest (rank + 1) 0 acc else none
    else if '1' ≤ ch ∧ ch ≤ '8' then
      if col + (ch.toNat - '0'.toNat) ≤ 8 then
        fen_go rest rank (col + (ch.toNat - '0'.toNat)) acc
      else none
    else
      match char_piece ch with
      | some p =>
        if h : rank ≤ 7 ∧ col < 8 then
          fen_go rest rank (col + 1)
            (Function.update acc ⟨(7 - rank) * 8 + col, by omega⟩ p)
        else none
      | none => none

/-- Parses a FEN piece-placement field, starting from an empty board. -/
def parse_fen (cs : List Char) : Option (Fin 64 → Piece) :=
  fen_go cs 0 0 (fun _ => emptyPiece)

/-- The standard starting position, the default argument of
`Board::load_fen`. -/
def default_fen : String :=
  "rnbqkbnr/pppppppp/8/8/8/8/PPPPPPPP/RNBQKBNR w KQkq - 0 1"

/-- Modelled from the spec: the position loader - on a well-formed
description it installs the parsed arrangement, clears the history and
resets the side to move to white, reporting success; on a malformed one it
leaves the previous state untouched and reports failure
(spec section 4.5). -/
def Board.load_fen (b : Board) (fen : String) : Board × Bool :=
  match parse_fen fen.data with
  | some sq => (⟨sq, PieceColor.white, []⟩, true)
  | none => (b, false)

/-- A board with no pieces, white to move, empty history. -/
def empty_board : Board := ⟨fun _ => emptyPiece, PieceColor.white, []⟩

/-- The board produced by `load_fen` with its default argument. -/
def initial_board : Board := (empty_board.load_fen default_fen).fst

/-- Modelled from the spec: the reachable board states - any state a
successful position load establishes, closed under applying a generated
move (with the caller's default promotion) and under undo
(spec sections 2 and 8). -/
inductive Reachable : Board → Prop where
  | loaded (b : Board) (fen : String) (b2 : Board) :
      b.load_fen fen = (b2, true) → Reachable b2
  | made (b : Board) (s t : Fin 64) : Reachable b →
      t ∈ b.get_moves s → Reachable (b.move (mk_move b s t))
  | undone (b : Board) : Reachable b → Reachable b.undo

/-- The starting arrangement written out square by square; used to evaluate
facts about `initial_board` quickly. -/
def start_squares : Fin 64 → Piece := fun i =>
  match i.val with
  | 0 => ⟨PieceColor.white, PieceType.rook⟩
  | 1 => ⟨PieceColor.white, PieceType.knight⟩
  | 2 => ⟨PieceColor.white, PieceType.bishop⟩
  | 3 => ⟨PieceColor.white, PieceType.queen⟩
  | 4 => ⟨PieceColor.white, PieceType.king⟩
  | 5 => ⟨PieceColor.white, PieceType.bishop⟩
  | 6 => ⟨PieceColor.white, PieceType.knight⟩
  | 7 => ⟨PieceColor.white, PieceType.rook⟩
  | 8 => ⟨PieceColor.white, PieceType.pawn⟩
  | 9 => ⟨PieceColor.white, PieceType.pawn⟩
  | 10 => ⟨PieceColor.white, PieceType.pawn⟩
  | 11 => ⟨PieceColor.white, PieceType.pawn⟩
  | 12 => ⟨PieceColor.white, PieceType.pawn⟩
  | 13 => ⟨PieceColor.white, PieceType.pawn⟩
  | 14 => ⟨PieceColor.white, PieceType.pawn⟩
  | 15 => ⟨PieceColor.white, PieceType.pawn⟩
  | 48 => ⟨PieceColor.black, PieceType.pawn⟩
  | 49 => ⟨PieceColor.black, PieceType.pawn⟩
  | 50 => ⟨PieceColor.black, PieceType.pawn⟩
  | 51 => ⟨PieceColor.black, PieceType.pawn⟩
  | 52 => ⟨PieceColor.black, PieceType.pawn⟩
  | 53 => ⟨PieceColor.black, PieceType.pawn⟩
  | 54 => ⟨PieceColor.black, PieceType.pawn⟩
  | 55 => ⟨PieceColor.black, PieceType.pawn⟩
  | 56 => ⟨PieceColor.black, PieceType.rook⟩
  | 57 => ⟨PieceColor.black, PieceType.knight⟩
  | 58 => ⟨PieceColor.black, PieceType.bishop⟩
  | 59 => ⟨PieceColor.black, PieceType.queen⟩
  | 60 => ⟨PieceColor.black, PieceType.king⟩
  | 61 => ⟨PieceColor.black, PieceType.bishop⟩
  | 62 => ⟨PieceColor.black, PieceType.knight⟩
  | 63 => ⟨PieceColor.black, PieceType.rook⟩
  | _ => emptyPiece

/-- The starting board in explicit form. -/
def start_board : Board := ⟨start_squares, PieceColor.white, []⟩

/-- The squares holding pawns of the side to move. -/
def side_pawn_tiles (b : Board) : List (Fin 64) :=
  (List.finRange 64).filter (fun s =>
    decide (get_piece_type (b.squares s) = PieceType.pawn ∧
      get_piece_color (b.squares s) = b.turn))

/-- The squares holding knights of the side to move. -/
def side_knight_tiles (b : Board) : List (Fin 64) :=
  (List.finRange 64).filter (fun s =>
    decide (get_piece_type (b.squares s) = PieceType.knight ∧
      get_piece_color (b.squares s) = b.turn))

/-- A position with a white pawn one step from promotion
(white pawn a7, black king h8, white king h1). -/
def promo_fen : String := "7k/P7/8/8/8/8/8/7K w - - 0 1"

/-- The board loaded from `promo_fen`. -/
def promo_board : Board := (empty_board.load_fen promo_fen).fst

/-- Embedded from `game.cpp`: the fields of `active_move_` that the
control flow reads (`tile`, `target`, `is_undo`, `is_completed`); the
animation's floating point `position` and `angle` are presentation data
and are omitted.  `ActiveMove zeroed{}` in C++ value-initializes every
field, so the reset value has both flags false. -/
structure ActiveMove where
  tile : Int
  target : Int
  is_undo : Bool
  is_completed : Bool
deriving DecidableEq, Repr

/-- The value-initialized `ActiveMove{}` of C++. -/
def activeMoveReset : ActiveMove := ⟨0, 0, false, false⟩

/-- Embedded from `game.cpp` / `game.hpp`: the members of `Game` that
`key_callback` touches. -/
structure GameSt where
  board : Board
  active_move : ActiveMove
  selectable_tiles : List (Fin 64)
  selected_tile : Int
  update_picking_texture : Bool

/-- Embedded from `game.cpp` lines 386-396 (`Game::undo`): when the
history is nonempty, start a reversed animation of the last record; the
board itself is not touched here (`Board::undo` runs later in
`Game::update`). -/
def game_undo (g : GameSt) : GameSt :=
  match g.board.records with
  | [] => g
  | last :: _ =>
    { g with active_move :=
        { activeMoveReset with
            tile := (last.move.target.val : Int)
            target := (last.move.tile.val : Int)
            is_undo := true } }

/-- GLFW key code of the U key. -/
def GLFW_KEY_U : Int := 85

/-- GLFW key code of the R key. -/
def GLFW_KEY_R : Int := 82

/-- GLFW press action code. -/
def GLFW_PRESS : Int := 1

/-- Embedded from `game.cpp` lines 471-485 (`Game::key_callback`): when
an animation is in progress the callback returns before reading any key;
otherwise U schedules an undo animation, R reloads the default position,
and in either case the selection state is cleared and the picking texture
marked stale. -/
def key_callback (g : GameSt) (key action : Int) : GameSt :=
  if !g.active_move.is_completed then g
  else
    let g1 :=
      if key = GLFW_KEY_U ∧ action = GLFW_PRESS then game_undo g
      else if key = GLFW_KEY_R ∧ action = GLFW_PRESS then
        { g with board := (g.board.load_fen default_fen).fst }
      else g
    { g1 with
        selectable_tiles := []
        selected_tile := -1
        update_picking_texture := true }

/-- Embedded from `renderer.cpp` lines 432-441
(`Renderer::bind_picking_texture_id`): the three RGB channel bytes the id
is split into by the `NORMALIZE_ID` masks, before each is divided by 255
for the shader (the division and the GPU write-back cancel byte-wise and
are not part of the integer codec). -/
def bind_picking_texture_id_bytes (id : Nat) : Nat × Nat × Nat :=
  ((id &&& 0xFF) >>> 0, (id &&& 0xFF00) >>> 8, (id &&& 0xFF0000) >>> 16)

/-- Embedded from `renderer.cpp` lines 443-464
(`Renderer::get_picking_texture_id`): recombines the four bytes read from
the picking framebuffer; returns -1 when the alpha byte is zero. -/
def get_picking_texture_id (d0 d1 d2 d3 : Nat) : Int :=
  if d3 ≠ 0 then ((d0 + d1 * 256 + d2 * 256 * 256 : Nat) : Int) else -1

end Chess

namespace Chess

/-- Restoring the destination's prior occupant and then putting the prior
origin occupant back inverts the two square writes of an applied move. -/
theorem undo_restore (sq : Fin 64 → Piece) (tile target : Fin 64)
    (p2 orig : Piece) (h : orig = sq tile) (i : Fin 64) :
    Function.update (Function.update
      (Function.update (Function.update sq tile emptyPiece) target p2)
      target (sq target)) tile orig i = sq i := by
  subst h
  rw [Function.update_idem]
  rcases eq_or_ne i tile with rfl | hit
  · rw [Function.update_same]
  · rw [Function.update_noteq hit]
    rcases eq_or_ne i target with rfl | hitg
    · rw [Function.update_same]
    · rw [Function.update_noteq hitg, Function.update_noteq hit]

/-- Undo after apply restores every square, for any move whatsoever. -/
theorem move_then_undo_squares (b : Board) (m : Move) (i : Fin 64) :
    ((b.move m).undo).squares i = b.squares i := by
  dsimp only [Board.move, Board.undo]
  apply undo_restore
  simp only [Function.update_same]
  by_cases hq : get_piece_type (b.squares m.tile) = PieceType.pawn ∧
      is_final_rank m.target = true
  · by_cases hp : m.promotion = PieceType.none
    · simp [hq, hp]
    · simp only [if_pos hq, if_neg hp]
      have hpk : (b.squares m.tile).kind = PieceType.pawn := hq.1
      generalize hsq : b.squares m.tile = x at *
      obtain ⟨c0, k0⟩ := x
      subst hpk
      rfl
  · simp [hq]

/-- Flipping the side to move twice is the identity. -/
theorem opposite_opposite (c : PieceColor) :
    get_opposite_color (get_opposite_color c) = c := by
  cases c <;> rfl

/-- Undo after apply restores the side to move, for any move. -/
theorem move_then_undo_turn (b : Board) (m : Move) :
    ((b.move m).undo).turn = b.turn := by
  dsimp only [Board.move, Board.undo]
  exact opposite_opposite b.turn

/-- Undo after apply restores the history, for any move. -/
theorem move_then_undo_records (b : Board) (m : Move) :
    ((b.move m).undo).records = b.records := by
  dsimp only [Board.move, Board.undo]

end Chess

namespace Chess

/-- A blocked ray is never longer than the full ray it walks. -/
theorem slide_ray_length_le (b : Board) (c : PieceColor)
    (l : List (Fin 64)) : (slide_ray b c l).length ≤ l.length := by
  induction l with
  | nil => simp [slide_ray]
  | cons t rest ih =>
    simp only [slide_ray]
    split_ifs
    · simpa using ih
    · simp
    · simp

/-- A sliding piece's raw moves are bounded by the total length of its
full rays. -/
theorem sliding_moves_length_le (b : Board) (c : PieceColor) (s : Fin 64)
    (dirs : List (Int × Int)) :
    (sliding_moves b c s dirs).length ≤
      (dirs.map (fun d => (raySquares s d).length)).sum := by
  unfold sliding_moves
  rw [List.length_flatten, List.map_map]
  apply List.sum_le_sum
  intro d _
  exact slide_ray_length_le b c (raySquares s d)

/-- From any square, the eight queen rays hold at most 27 squares in
total (the queen's empty-board maximum). -/
theorem queen_rays_le (s : Fin 64) :
    (queenDirs.map (fun d => (raySquares s d).length)).sum ≤ 27 := by
  revert s
  decide

/-- From any square, the four bishop rays hold at most 27 squares. -/
theorem bishop_rays_le (s : Fin 64) :
    (bishopDirs.map (fun d => (raySquares s d).length)).sum ≤ 27 := by
  revert s
  decide

/-- From any square, the four rook rays hold at most 27 squares. -/
theorem rook_rays_le (s : Fin 64) :
    (rookDirs.map (fun d => (raySquares s d).length)).sum ≤ 27 := by
  revert s
  decide

/-- A fixed-offset piece has no more raw moves than offsets. -/
theorem offset_moves_length_le (b : Board) (c : PieceColor) (s : Fin 64)
    (offs : List (Int × Int)) :
    (offset_moves b c s offs).length ≤ offs.length :=
  List.length_filterMap_le _ _

/-- The single advance contributes at most one destination. -/
theorem pawn_fwd1_length_le (b : Board) (s : Fin 64) (dir : Int) :
    (pawn_fwd1 b s dir).length ≤ 1 := by
  unfold pawn_fwd1
  split
  · split_ifs <;> simp
  · simp

/-- The double advance contributes at most one destination. -/
theorem pawn_fwd2_length_le (b : Board) (s : Fin 64) (dir start : Int) :
    (pawn_fwd2 b s dir start).length ≤ 1 := by
  unfold pawn_fwd2
  split
  · split_ifs <;> simp
  · simp

/-- The diagonal captures contribute at most two destinations. -/
theorem pawn_caps_length_le (b : Board) (c : PieceColor) (s : Fin 64)
    (dir : Int) : (pawn_caps b c s dir).length ≤ 2 :=
  List.length_filterMap_le _ _

/-- A pawn has at most four raw moves. -/
theorem pawn_moves_length_le (b : Board) (c : PieceColor) (s : Fin 64) :
    (pawn_moves b c s).length ≤ 4 := by
  unfold pawn_moves
  simp only [List.length_append]
  have h1 := pawn_fwd1_length_le b s (if c = PieceColor.white then 1 else -1)
  have h2 := pawn_fwd2_length_le b s (if c = PieceColor.white then 1 else -1)
    (if c = PieceColor.white then 1 else 6)
  have h3 := pawn_caps_length_le b c s
    (if c = PieceColor.white then 1 else -1)
  omega

/-- No piece has more than 27 raw moves from any origin. -/
theorem raw_moves_length_le (b : Board) (s : Fin 64) :
    (raw_moves b s).length ≤ 27 := by
  unfold raw_moves
  split
  · simp
  · exact le_trans (pawn_moves_length_le b _ s) (by omega)
  · exact le_trans (offset_moves_length_le b _ s knightOffsets) (by decide)
  · exact le_trans (sliding_moves_length_le b _ s bishopDirs)
      (bishop_rays_le s)
  · exact le_trans (sliding_moves_length_le b _ s rookDirs)
      (rook_rays_le s)
  · exact le_trans (sliding_moves_length_le b _ s queenDirs)
      (queen_rays_le s)
  · exact le_trans (offset_moves_length_le b _ s kingOffsets) (by decide)

/-- Membership in the legal move list splits into raw membership and the
passed king-safety test. -/
theorem mem_get_moves (b : Board) (s t : Fin 64)
    (h : t ∈ b.get_moves s) :
    t ∈ raw_moves b s ∧
      in_check (b.move (mk_move b s t))
        (get_piece_color (b.squares s)) = false := by
  unfold Board.get_moves at h
  have h2 := List.mem_filter.1 h
  simpa using h2

/-- A successful load is a reachable state. -/
theorem reachable_load (b : Board) (fen : String)
    (h : (b.load_fen fen).snd = true) :
    Reachable ((b.load_fen fen).fst) := by
  apply Reachable.loaded b fen
  rw [← h]

/-- The default-loaded board is reachable. -/
theorem reachable_initial : Reachable initial_board :=
  reachable_load empty_board default_fen (by decide)

/-- The default-loaded board is the standard starting arrangement. -/
theorem initial_board_eq : initial_board = start_board := by decide

/-- The explicit starting board is reachable. -/
theorem reachable_start : Reachable start_board :=
  initial_board_eq ▸ reachable_initial

/-- The promotion test position is reachable. -/
theorem reachable_promo : Reachable promo_board :=
  reachable_load empty_board promo_fen (by decide)

end Chess

namespace Chess

/-- C1: for every reachable board state B and every move M in the move
list the generator returns for B (applied with the caller's default
promotion, as `Game::update` builds it), applying M and then undoing
restores a board equal to B on all 64 squares, in the side to move, and
in the history.  Proved from `move_then_undo_squares`, which holds for
every move, so in particular for generated ones. -/
theorem undo_inverse_law (b : Board) (hb : Reachable b) (s t : Fin 64)
    (hm : t ∈ b.get_moves s) :
    (∀ i : Fin 64,
      ((b.move (mk_move b s t)).undo).squares i = b.squares i) ∧
    ((b.move (mk_move b s t)).undo).turn = b.turn ∧
    ((b.move (mk_move b s t)).undo).records = b.records :=
  ⟨fun i => move_then_undo_squares b (mk_move b s t) i,
    move_then_undo_turn b (mk_move b s t),
    move_then_undo_records b (mk_move b s t)⟩

/-- C1 witness: the white a2 pawn's double advance on the starting board,
applied and undone. -/
theorem undo_inverse_law_witness :
    (∀ i : Fin 64,
      ((start_board.move
        (mk_move start_board ⟨8, by omega⟩ ⟨16, by omega⟩)).undo).squares i
        = start_board.squares i) ∧
    ((start_board.move
      (mk_move start_board ⟨8, by omega⟩ ⟨16, by omega⟩)).undo).turn
      = start_board.turn ∧
    ((start_board.move
      (mk_move start_board ⟨8, by omega⟩ ⟨16, by omega⟩)).undo).records
      = start_board.records :=
  undo_inverse_law start_board reachable_start ⟨8, by omega⟩
    ⟨16, by omega⟩ (by decide)

/-- C2: on a reachable board, every generated move of a piece of the side
to move, once applied, leaves the mover's king unattacked by the
opponent's raw move set (that is, the applied position fails the
`in_check` test the legality filter used). -/
theorem legality_closure (b : Board) (hb : Reachable b) (s t : Fin 64)
    (hside : get_piece_color (b.squares s) = b.turn)
    (hm : t ∈ b.get_moves s) :
    in_check (b.move (mk_move b s t)) b.turn = false := by
  have h := (mem_get_moves b s t hm).2
  rwa [hside] at h

/-- C2 witness: the white a2 pawn's double advance from the starting
board leaves white's king unattacked. -/
theorem legality_closure_witness :
    in_check (start_board.move
      (mk_move start_board ⟨8, by omega⟩ ⟨16, by omega⟩))
      start_board.turn = false :=
  legality_closure start_board reachable_start ⟨8, by omega⟩
    ⟨16, by omega⟩ (by decide) (by decide)

/-- C3: on a reachable board, `is_game_over` is true exactly when every
square holding a piece of the side to move has an empty generated move
list - the union of the generator's results over those squares is
empty. -/
theorem terminal_consistency (b : Board) (hb : Reachable b) :
    b.is_game_over = true ↔
      ∀ s : Fin 64, get_piece_color (b.squares s) = b.turn →
        b.get_moves s = [] := by
  unfold Board.is_game_over
  rw [List.all_eq_true]
  constructor
  · intro h s hc
    have h2 := h s (List.mem_finRange s)
    simp [hc, List.isEmpty_iff] at h2
    exact h2
  · intro h s _
    by_cases hc : get_piece_color (b.squares s) = b.turn
    · simp [hc, h s hc]
    · simp [hc]

/-- C3 witness: the equivalence instantiated at the starting board. -/
theorem terminal_consistency_witness :
    start_board.is_game_over = true ↔
      ∀ s : Fin 64,
        get_piece_color (start_board.squares s) = start_board.turn →
          start_board.get_moves s = [] :=
  terminal_consistency start_board reachable_start

/-- C4: on a reachable board, the generator returns at most 27
destinations for any origin square. -/
theorem bounded_branching (b : Board) (hb : Reachable b) (s : Fin 64) :
    (b.get_moves s).length ≤ 27 := by
  unfold Board.get_moves
  exact le_trans (List.length_filter_le _ _) (raw_moves_length_le b s)

/-- C4 witness: the bound instantiated at the starting board, square a1. -/
theorem bounded_branching_witness :
    (start_board.get_moves ⟨0, by omega⟩).length ≤ 27 :=
  bounded_branching start_board reachable_start ⟨0, by omega⟩

/-- C5: on a reachable board where a pawn has a generated move to a final
rank, applying that move with promotion kind queen puts a queen of the
mover's color on the destination, and the following undo restores a pawn
of that color on the origin.  The generator's offering of the
destination is the membership hypothesis `hm`. -/
theorem promotion_scenario (b : Board) (hb : Reachable b) (s t : Fin 64)
    (c : PieceColor) (hp : b.squares s = ⟨c, PieceType.pawn⟩)
    (hm : t ∈ b.get_moves s) (hf : is_final_rank t = true) :
    (b.move ⟨s, t, PieceType.queen⟩).squares t =
      ⟨c, PieceType.queen⟩ ∧
    ((b.move ⟨s, t, PieceType.queen⟩).undo).squares s =
      ⟨c, PieceType.pawn⟩ := by
  constructor
  · dsimp only [Board.move]
    rw [Function.update_same]
    have hq : get_piece_type (b.squares s) = PieceType.pawn ∧
        is_final_rank t = true := ⟨by rw [hp]; rfl, hf⟩
    rw [if_pos hq,
      if_neg (by decide : ¬(PieceType.queen = PieceType.none)), hp]
  · exact (move_then_undo_squares b ⟨s, t, PieceType.queen⟩ s).trans hp

/-- C5 witness: the a7 pawn of the promotion test position promoting on
a8. -/
theorem promotion_scenario_witness :
    (promo_board.move
      ⟨⟨48, by omega⟩, ⟨56, by omega⟩, PieceType.queen⟩).squares
      ⟨56, by omega⟩ = ⟨PieceColor.white, PieceType.queen⟩ ∧
    ((promo_board.move
      ⟨⟨48, by omega⟩, ⟨56, by omega⟩, PieceType.queen⟩).undo).squares
      ⟨48, by omega⟩ = ⟨PieceColor.white, PieceType.pawn⟩ :=
  promotion_scenario promo_board reachable_promo ⟨48, by omega⟩
    ⟨56, by omega⟩ PieceColor.white (by decide) (by decide) (by decide)

/-- C6 counterexample: after the default load the side to move has 8 pawn
squares, not 16, so "each of the 16 pawns of the side to move" misstates
the quantification domain. -/
theorem starting_pawns_not_sixteen :
    ¬ (side_pawn_tiles initial_board).length = 16 := by
  rw [initial_board_eq]
  decide

/-- C6 amended: after loading the default position, the side to move has
8 pawns and the generator returns exactly 2 destinations for each of
them, and exactly 2 destinations for each knight of the side to move. -/
theorem starting_position_moves :
    (side_pawn_tiles initial_board).length = 8 ∧
    (∀ s ∈ side_pawn_tiles initial_board,
      (initial_board.get_moves s).length = 2) ∧
    (∀ s ∈ side_knight_tiles initial_board,
      (initial_board.get_moves s).length = 2) := by
  rw [initial_board_eq]
  decide

/-- C7: a position description the parser rejects leaves the board (all
squares, history and side to move) exactly as it was and reports
failure. -/
theorem loader_rejects_malformed (b : Board) (fen : String)
    (h : parse_fen fen.data = none) :
    (b.load_fen fen).fst = b ∧ (b.load_fen fen).snd = false := by
  unfold Board.load_fen
  rw [h]
  exact ⟨rfl, rfl⟩

/-- C7 witness: the malformed description "bad" rejected on the empty
board. -/
theorem loader_rejects_malformed_witness :
    (empty_board.load_fen "bad").fst = empty_board ∧
    (empty_board.load_fen "bad").snd = false :=
  loader_rejects_malformed empty_board "bad" (by decide)

/-- C8: on a reachable board, the generator returns the empty list for a
square holding no piece; being a total function it cannot fail. -/
theorem empty_square_moves (b : Board) (hb : Reachable b) (s : Fin 64)
    (h : get_piece_type (b.squares s) = PieceType.none) :
    b.get_moves s = [] := by
  unfold Board.get_moves raw_moves
  rw [h]
  rfl

/-- C8 witness: square a4 of the starting board is empty and yields no
moves. -/
theorem empty_square_moves_witness :
    start_board.get_moves ⟨24, by omega⟩ = [] :=
  empty_square_moves start_board reachable_start ⟨24, by omega⟩
    (by decide)

/-- A masked-then-shifted byte extraction equals shifting first and
masking after. -/
theorem and_shiftLeft_shiftRight (x m k : Nat) :
    (x &&& (m <<< k)) >>> k = (x >>> k) &&& m := by
  apply Nat.eq_of_testBit_eq
  intro i
  simp [Nat.testBit_shiftRight, Nat.testBit_and, Nat.testBit_shiftLeft,
    Nat.le_add_right]

/-- Masking with 0xFF is reduction modulo 256. -/
theorem and_ff_eq_mod (x : Nat) : x &&& 0xFF = x % 256 := by
  have h := Nat.and_pow_two_sub_one_eq_mod x 8
  norm_num at h
  exact h

/-- C9: for every id in [0, 16777215], splitting it into the three RGB
channel bytes as `Renderer::bind_picking_texture_id` does and
recombining them as `Renderer::get_picking_texture_id` does (with any
nonzero alpha byte) returns the original id. -/
theorem picking_id_roundtrip (id a : Nat) (hid : id ≤ 16777215)
    (ha : a ≠ 0) :
    get_picking_texture_id (bind_picking_texture_id_bytes id).1
      (bind_picking_texture_id_bytes id).2.1
      (bind_picking_texture_id_bytes id).2.2 a = (id : Int) := by
  unfold bind_picking_texture_id_bytes get_picking_texture_id
  rw [if_pos ha]
  dsimp only
  have h0 : (id &&& 0xFF) >>> 0 = id % 256 := by
    rw [Nat.shiftRight_zero]
    exact and_ff_eq_mod id
  have h1 : (id &&& 0xFF00) >>> 8 = id / 256 % 256 := by
    rw [show (0xFF00 : Nat) = 0xFF <<< 8 by decide,
      and_shiftLeft_shiftRight, and_ff_eq_mod,
      Nat.shiftRight_eq_div_pow]
  have h2 : (id &&& 0xFF0000) >>> 16 = id / 65536 % 256 := by
    rw [show (0xFF0000 : Nat) = 0xFF <<< 16 by decide,
      and_shiftLeft_shiftRight, and_ff_eq_mod,
      Nat.shiftRight_eq_div_pow]
  rw [h0, h1, h2]
  omega

/-- C9 witness: the round trip at id 123456 with alpha byte 255. -/
theorem picking_id_roundtrip_witness :
    get_picking_texture_id (bind_picking_texture_id_bytes 123456).1
      (bind_picking_texture_id_bytes 123456).2.1
      (bind_picking_texture_id_bytes 123456).2.2 255 = (123456 : Int) :=
  picking_id_roundtrip 123456 255 (by decide) (by decide)

/-- C10: while a move animation is in progress, `Game::key_callback`
returns immediately and the whole game state - the board (so no
`Board::undo` scheduling and no `Board::load_fen`), the animation, the
selection - is left untouched, whatever key and action arrive. -/
theorem key_callback_guard (g : GameSt) (key action : Int)
    (h : g.active_move.is_completed = false) :
    key_callback g key action = g := by
  simp [key_callback, h]

/-- C10 witness: pressing U during an animation on a fresh game state
changes nothing. -/
theorem key_callback_guard_witness :
    key_callback ⟨empty_board, ⟨0, 0, false, false⟩, [], -1, false⟩
      GLFW_KEY_U GLFW_PRESS =
      ⟨empty_board, ⟨0, 0, false, false⟩, [], -1, false⟩ :=
  key_callback_guard ⟨empty_board, ⟨0, 0, false, false⟩, [], -1, false⟩
    GLFW_KEY_U GLFW_PRESS rfl

end Chess
